import Mathlib

/-!
# Trace rendering of shell command nodes (`interp/trace.go`)

A shallow embedding of `Runner.traceExpr`, the function that renders the
`xtrace` line of a command node, together with theorems about what it hands
to the output sink.

* Go strings are Lean `String`s, Go `int` is `Int`.
* The builder `b` of the source is a `String` that is only ever appended to.
* An early `return` of the source is the result `none` of the body; falling
  out of the `switch` is `some b`, after which the newline is appended and
  the line is given to the sink `r.out`.
* The runner methods `r.fields`, `r.literal` and `r.arithm` are not part of
  the file; they are parameters that read and update an arbitrary runner
  state `σ`, so that every behaviour of them is covered. The functions of
  package `syntax` that the source calls (`Word.Lit`, `Quote`,
  `Printer.Print`, `Pos.IsValid`) are parameters without state.
-/

namespace Sh

/-! ## Go standard library -/

namespace unicode

/-- Go `unicode.IsSpace`: the white space characters of Unicode. -/
def IsSpace (c : Char) : Bool :=
  let n := c.toNat
  n == 0x09 || n == 0x0A || n == 0x0B || n == 0x0C || n == 0x0D || n == 0x20 ||
  n == 0x85 || n == 0xA0 || n == 0x1680 || (0x2000 ≤ n && n ≤ 0x200A) ||
  n == 0x2028 || n == 0x2029 || n == 0x202F || n == 0x205F || n == 0x3000

end unicode

namespace strings

/-- Go `strings.Join(elems, sep)`. -/
def Join : List String → String → String
  | [], _ => ""
  | [a], _ => a
  | a :: b :: rest, sep => a ++ sep ++ Join (b :: rest) sep

/-- Go `strings.TrimSpace(s)`: `s` without its leading and trailing white
space. -/
def TrimSpace (s : String) : String :=
  ⟨((s.data.dropWhile unicode.IsSpace).reverse.dropWhile unicode.IsSpace).reverse⟩

end strings

namespace fmt

/-- Go `fmt.Sprintf("%d", n)`: the base-10 digits of `n`, with a leading
`-` when `n` is negative. -/
def Sprintd : Int → String
  | Int.ofNat m => Nat.repr m
  | Int.negSucc m => "-" ++ Nat.repr (m + 1)

end fmt

/-! ## The syntax tree handed to `traceExpr`

Only the fields that `traceExpr` reads, or that tell two nodes apart, are
kept. Nodes are the ones a parser builds: pointers that the source
dereferences without a check (`x.Args[0]`, `v.Name`, `x.Loop`, `x.Word`)
are present. -/

/-- Modelled from the spec: the word parts of package `syntax`, whose
declarations are not in the file. Each part carries its source text. -/
inductive WordPart where
  | Lit (Value : String)
  | SglQuoted (Value : String)
  | DblQuoted (text : String)
  | ParamExp (text : String)
  | CmdSubst (text : String)
  | ArithmExp (text : String)
  | ProcSubst (text : String)
  | ExtGlob (text : String)
  | BraceExp (text : String)
  deriving DecidableEq, Repr

/-- Modelled from the spec: `syntax.Word`, a sequence of word parts. -/
structure Word where
  Parts : List WordPart
  deriving DecidableEq, Repr

/-- Modelled from the spec: `syntax.ArrayExpr`, the value of an array
assignment. -/
structure ArrayExpr where
  Elems : List Word
  deriving DecidableEq, Repr

/-- Modelled from the spec: `syntax.Assign`. `Name` is `v.Name.Value`;
`Value` and `Array` are the two pointers the source tests against `nil`. -/
structure Assign where
  Name : String
  Value : Option Word
  Array : Option ArrayExpr
  deriving DecidableEq, Repr

/-- Modelled from the spec: `syntax.CallExpr`. -/
structure CallExpr where
  Assigns : List Assign
  Args : List Word
  deriving DecidableEq, Repr

/-- Modelled from the spec: `syntax.Pos`, a position in the source text. -/
structure Pos where
  offs : Nat
  line : Nat
  col : Nat
  deriving DecidableEq, Repr

/-- Modelled from the spec: `syntax.Loop`, the iteration source of a
`for` or `select` clause. -/
inductive Loop where
  | WordIter (Name : String) (InPos : Pos) (Items : List Word)
  | CStyleLoop (text : String)
  deriving DecidableEq, Repr

/-- Modelled from the spec: `syntax.ForClause`. -/
structure ForClause where
  Select : Bool
  Loop : Loop
  deriving DecidableEq, Repr

/-- Modelled from the spec: `syntax.CaseItem`, one arm of a case clause. -/
structure CaseItem where
  Patterns : List Word
  deriving DecidableEq, Repr

/-- Modelled from the spec: `syntax.CaseClause`. -/
structure CaseClause where
  Word : Word
  Items : List CaseItem
  deriving DecidableEq, Repr

/-- Modelled from the spec: `syntax.ArithmExpr`, an expression of a let
clause: a plain word or a compound expression. -/
inductive ArithmExpr where
  | Word (w : Word)
  | BinaryArithm (text : String)
  | UnaryArithm (text : String)
  | ParenArithm (text : String)
  deriving DecidableEq, Repr

/-- Modelled from the spec: `syntax.LetClause`. -/
structure LetClause where
  Exprs : List ArithmExpr
  deriving DecidableEq, Repr

/-- Modelled from the spec: `syntax.Node`, the argument of `traceExpr`.
The four kinds that are rendered carry their fields; the others carry
their source text. `Word` is a node because the printer is called on the
items of a loop and on the word of a case clause; `Other` stands for every
remaining node type. -/
inductive Node where
  | CallExpr (x : CallExpr)
  | ForClause (x : ForClause)
  | CaseClause (x : CaseClause)
  | LetClause (x : LetClause)
  | IfClause (text : String)
  | WhileClause (text : String)
  | ArithmCmd (text : String)
  | TestClause (text : String)
  | DeclClause (text : String)
  | TimeClause (text : String)
  | Block (text : String)
  | Subshell (text : String)
  | BinaryCmd (text : String)
  | FuncDecl (text : String)
  | CoprocClause (text : String)
  | Word (w : Word)
  | Other (text : String)
  deriving DecidableEq, Repr

/-- Modelled from the spec: `syntax.QuoteError`, the error of the quoting
service. -/
structure QuoteError where
  ByteOffset : Nat
  Message : String
  deriving DecidableEq, Repr

/-! ## The collaborators -/

/-- The runner as `traceExpr` sees it, over a runner state `σ`.
`optXTrace` is `r.opts[optXTrace]`; `fields`, `literal` and `arithm` are the
runner methods of those names, which may change the state; `Lit`, `Quote`
(at `syntax.LangBash`), `Print` (what `printer.Print` appends to the
builder) and `IsValid` belong to package `syntax`. -/
structure Runner (σ : Type) where
  optXTrace : σ → Bool
  fields : List Word → σ → List String × σ
  literal : Word → σ → String × σ
  arithm : Word → σ → Int × σ
  Lit : Word → String
  Quote : String → Except QuoteError String
  Print : Node → String
  IsValid : Pos → Bool

variable {σ : Type}

/-! ## `traceExpr` -/

/-- Lines 31-53: the command name and the fields of a call. The result is
the builder, or `none` for the `return` of line 47, and the runner state. -/
def traceArgs (r : Runner σ) (x : CallExpr) (b : String) (s : σ) : Option String × σ :=
  match x.Args with
  | [] => (some b, s)
  | a :: rest =>
    let funcName := r.Lit a
    let fs := r.fields rest s
    let str := strings.Join fs.1 " "
    if strings.TrimSpace str = "" then
      (some (b ++ funcName), fs.2)
    else if funcName = "set" then
      (some (b ++ funcName ++ " " ++ str), fs.2)
    else
      match r.Quote str with
      | .error _ => (none, fs.2)
      | .ok qs => (some (b ++ funcName ++ " " ++ qs), fs.2)

/-- Lines 59-77: the loop over the parts of the value `val` of the scalar
assignment `v` of the call `x`. -/
def traceParts (r : Runner σ) (x : CallExpr) (v : Assign) (val : Word) :
    List WordPart → String → σ → Option String × σ
  | [], b, s => (some b, s)
  | w :: ws, b, s =>
    match w with
    | .ArithmExp _ =>
      traceParts r x v val ws
        (b ++ (v.Name ++ "=" ++ fmt.Sprintd (r.arithm val s).1)) (r.arithm val s).2
    | .DblQuoted _ =>
      match r.Quote (r.literal val s).1 with
      | .error _ => (none, (r.literal val s).2)
      | .ok qs => traceParts r x v val ws (b ++ (v.Name ++ "=" ++ qs)) (r.literal val s).2
    | .SglQuoted _ => traceParts r x v val ws (b ++ r.Print (.CallExpr x)) s
    | .Lit _ => traceParts r x v val ws (b ++ r.Print (.CallExpr x)) s
    | .ParamExp _ => (none, s)
    | .ProcSubst _ => (none, s)
    | .ExtGlob _ => (none, s)
    | .BraceExp _ => (none, s)
    | .CmdSubst _ => (none, s)

/-- Lines 55-79: the loop over the assignments of the call `x`. -/
def traceAssigns (r : Runner σ) (x : CallExpr) :
    List Assign → String → σ → Option String × σ
  | [], b, s => (some b, s)
  | v :: vs, b, s =>
    match v.Array with
    | some _ => traceAssigns r x vs (b ++ r.Print (.CallExpr x)) s
    | none =>
      match v.Value with
      | some val =>
        match traceParts r x v val val.Parts b s with
        | (none, s1) => (none, s1)
        | (some b1, s1) => traceAssigns r x vs b1 s1
      | none => traceAssigns r x vs b s

/-- Lines 87-90 and 100-102: the printer appends each item, and `sep`
after it, to the builder. -/
def traceItems (r : Runner σ) (sep : String) : List Word → String → String
  | [], b => b
  | item :: items, b => traceItems r sep items (b ++ r.Print (.Word item) ++ sep)

/-- Lines 113-124: the loop over the expressions of the let clause `x`. -/
def traceLet (r : Runner σ) (x : LetClause) :
    List ArithmExpr → String → σ → Option String × σ
  | [], b, s => (some b, s)
  | e :: es, b, s =>
    match e with
    | .Word v =>
      match r.Quote (r.literal v s).1 with
      | .error _ => (none, (r.literal v s).2)
      | .ok qs => traceLet r x es (b ++ ("let " ++ qs)) (r.literal v s).2
    | _ => traceLet r x es (b ++ r.Print (.LetClause x)) s

/-- Lines 29-129: the `switch` over the node, started on the builder `b`. -/
def traceNode (r : Runner σ) (cm : Node) (b : String) (s : σ) : Option String × σ :=
  match cm with
  | .CallExpr x =>
    match traceArgs r x b s with
    | (none, s1) => (none, s1)
    | (some b1, s1) => traceAssigns r x x.Assigns b1 s1
  | .ForClause x =>
    match x.Loop with
    | .WordIter name inPos items =>
      if x.Select then
        (some (traceItems r " " items (b ++ "select ")), s)
      else if !r.IsValid inPos then
        (none, s)
      else
        (some (traceItems r "" items (b ++ "for " ++ name ++ " in '") ++ "'"), s)
    | .CStyleLoop _ => (none, s)
  | .CaseClause x => (some (b ++ "case " ++ r.Print (.Word x.Word) ++ " in"), s)
  | .LetClause x => traceLet r x x.Exprs b s
  | .IfClause _ => (none, s)
  | .WhileClause _ => (none, s)
  | .ArithmCmd _ => (none, s)
  | .TestClause _ => (none, s)
  | .DeclClause _ => (none, s)
  | .TimeClause _ => (none, s)
  | _ => (none, s)

/-- The function `traceExpr` of the source. The result is the list of the
strings given to the sink `r.out`, in order, and the runner state. -/
def traceExpr (r : Runner σ) (cm : Node) (s : σ) : List String × σ :=
  if !r.optXTrace s then
    ([], s)
  else
    match traceNode r cm "+ " s with
    | (none, s1) => ([], s1)
    | (some b, s1) => ([b ++ "\n"], s1)

/-! ## Test collaborators -/

/-- The concatenation of the texts of the parts of a word. -/
def wordText (w : Word) : String :=
  String.join (w.Parts.map fun p =>
    match p with
    | .Lit v => v
    | .SglQuoted v => v
    | .DblQuoted t => t
    | .ParamExp t => t
    | .CmdSubst t => t
    | .ArithmExp t => t
    | .ProcSubst t => t
    | .ExtGlob t => t
    | .BraceExp t => t)

/-- A runner without state: tracing is enabled when `enabled` holds, a word expands to
its text, arithmetic gives `n`, quoting wraps in single quotes, and the
printer writes the text of a word and `call` for any other node. -/
def demoRunner (enabled : Bool) (n : Int) : Runner Unit where
  optXTrace := fun _ => enabled
  fields := fun ws s => (ws.map wordText, s)
  literal := fun w s => (wordText w, s)
  arithm := fun _ s => (n, s)
  Lit := wordText
  Quote := fun t => .ok ("'" ++ t ++ "'")
  Print := fun nd =>
    match nd with
    | .Word w => wordText w
    | _ => "call"
  IsValid := fun p => decide (0 < p.line)

/-- The word made of one literal. -/
def litWord (t : String) : Word := ⟨[.Lit t]⟩

/-- The runner `demoRunner true 3` with a quoting service that fails on every
string. -/
def failRunner : Runner Unit :=
  { demoRunner true 3 with Quote := fun _ => .error ⟨0, "cannot quote"⟩ }

/-- The source text of a word part, for the test printer: a single-quoted
fragment is shown in its quotes, every other part as its text. -/
def showPart : WordPart → String
  | .Lit v => v
  | .SglQuoted v => "'" ++ v ++ "'"
  | .DblQuoted t => t
  | .ParamExp t => t
  | .CmdSubst t => t
  | .ArithmExp t => t
  | .ProcSubst t => t
  | .ExtGlob t => t
  | .BraceExp t => t

/-- The source text of a word, for the test printer. -/
def showWord (w : Word) : String := String.join (w.Parts.map showPart)

/-- The source text of an assignment, for the test printer. -/
def showAssign (v : Assign) : String :=
  match v.Array, v.Value with
  | some arr, _ => v.Name ++ "=(" ++ strings.Join (arr.Elems.map showWord) " " ++ ")"
  | none, some val => v.Name ++ "=" ++ showWord val
  | none, none => v.Name ++ "="

/-- The test printer: a call is shown as its assignments and arguments
separated by single spaces, a word as its source text, any other node as
`node`. -/
def showNode : Node → String
  | .CallExpr x => strings.Join (x.Assigns.map showAssign ++ x.Args.map showWord) " "
  | .Word w => showWord w
  | _ => "node"

/-- The runner `demoRunner true 3` with the test printer `showNode`. -/
def printRunner : Runner Unit :=
  { demoRunner true 3 with Print := showNode }

/-- A runner with state: it answers as `demoRunner true 3` does, and counts
in its state the calls of `fields`, `literal` and `arithm`. -/
def countingRunner : Runner Nat where
  optXTrace := fun _ => true
  fields := fun ws k => (ws.map wordText, k + 1)
  literal := fun w k => (wordText w, k + 1)
  arithm := fun _ k => (3, k + 1)
  Lit := wordText
  Quote := fun t => .ok ("'" ++ t ++ "'")
  Print := fun nd =>
    match nd with
    | .Word w => wordText w
    | _ => "call"
  IsValid := fun p => decide (0 < p.line)

/-! ## Notions of the claims -/

/-- The part kinds for which lines 72-75 return: parameter expansion, command
substitution, process substitution, extended glob and brace expansion. -/
def WordPart.unsupported : WordPart → Bool
  | .ParamExp _ => true
  | .CmdSubst _ => true
  | .ProcSubst _ => true
  | .ExtGlob _ => true
  | .BraceExp _ => true
  | _ => false

/-- The nodes that are said to produce no trace: the six kinds of line 125,
the kinds that no `case` names, and the for-clause over a C-style loop. -/
def Node.untraced : Node → Bool
  | .IfClause _ => true
  | .WhileClause _ => true
  | .ArithmCmd _ => true
  | .TestClause _ => true
  | .DeclClause _ => true
  | .TimeClause _ => true
  | .Block _ => true
  | .Subshell _ => true
  | .BinaryCmd _ => true
  | .FuncDecl _ => true
  | .CoprocClause _ => true
  | .Word _ => true
  | .Other _ => true
  | .ForClause x =>
    match x.Loop with
    | .CStyleLoop _ => true
    | .WordIter _ _ _ => false
  | .CallExpr _ => false
  | .CaseClause _ => false
  | .LetClause _ => false

/-- The string `t` written `n` times in a row. -/
def repeatStr (t : String) : Nat → String
  | 0 => ""
  | n + 1 => t ++ repeatStr t n

/-- The line that renders each double-quoted part from the literal text of
that part alone: the mark, then for every part `p` the segment
`name=quote(literal(p))`, then the newline. -/
def perPartLine (r : Runner σ) (name : String) (ps : List WordPart) (s : σ) : String :=
  "+ " ++ String.join (ps.map fun p =>
    match r.Quote (r.literal ⟨[p]⟩ s).1 with
    | .ok q => name ++ "=" ++ q
    | .error _ => "") ++ "\n"

/-- The strings of a list written one after the other, with nothing
between them. -/
def concatStr : List String → String
  | [] => ""
  | a :: l => a ++ concatStr l

/-- The segment that one part of the value of the assignment `name=V`
contributes to the line, given the rendering `printCall` of the whole call,
the integer `d` that the arithmetic evaluator returns for `V` and the quoted
form `q` of the literal text of `V`. Unsupported parts have no segment. -/
def partSegment (printCall name : String) (d : Int) (q : String) : WordPart → String
  | .ArithmExp _ => name ++ "=" ++ fmt.Sprintd d
  | .DblQuoted _ => name ++ "=" ++ q
  | .SglQuoted _ => printCall
  | .Lit _ => printCall
  | _ => ""

/-- The segment that the assignment `v` of the call `x` contributes to the
line: the rendering of the whole call for an array value, the segments of
the parts of a word value one after the other, nothing when `v` has
neither. `ar` and `qt` give, for a value, the integer of the arithmetic
evaluator and the quoted form of its literal text. -/
def assignSegment (r : Runner σ) (ar : Word → Int) (qt : Word → String) (x : CallExpr)
    (v : Assign) : String :=
  match v.Array with
  | some _ => r.Print (.CallExpr x)
  | none =>
    match v.Value with
    | some val =>
      concatStr (val.Parts.map
        (partSegment (r.Print (.CallExpr x)) v.Name (ar val) (qt val)))
    | none => ""

/-- Two runners, over state types of their own, whose collaborators return
the same results: `R` relates the states of the two; on related states
`fields`, `literal` and `arithm` return the same value and leave related
states; `Quote` and `Print` return the same value; and `Lit` and `IsValid`,
which read the node, are the same. -/
structure SameResults {τ : Type} (R : σ → τ → Prop) (r1 : Runner σ) (r2 : Runner τ) :
    Prop where
  fields : ∀ ws a b, R a b →
    (r1.fields ws a).1 = (r2.fields ws b).1 ∧ R (r1.fields ws a).2 (r2.fields ws b).2
  literal : ∀ w a b, R a b →
    (r1.literal w a).1 = (r2.literal w b).1 ∧ R (r1.literal w a).2 (r2.literal w b).2
  arithm : ∀ w a b, R a b →
    (r1.arithm w a).1 = (r2.arithm w b).1 ∧ R (r1.arithm w a).2 (r2.arithm w b).2
  quote : ∀ t, r1.Quote t = r2.Quote t
  print : ∀ n, r1.Print n = r2.Print n
  lit : ∀ w, r1.Lit w = r2.Lit w
  isValid : ∀ p, r1.IsValid p = r2.IsValid p

/-- The claims' "empty or only white space". -/
def isBlank (t : String) : Bool := t.data.all unicode.IsSpace

/-- The segment of the command of a call: the name alone when the joined
fields `str` are blank, the name and the joined fields for `set`, the name
and the quoted form `q` of the joined fields otherwise. -/
def commandSegment (name str q : String) : String :=
  if isBlank str then name
  else if name = "set" then name ++ " " ++ str
  else name ++ " " ++ q

/-- An assignment that is rendered, for collaborators whose answers on its
value do not depend on the runner state: if it is scalar with a word value,
no part of the value is unsupported, the arithmetic evaluator returns
`ar val`, the literal text is `lit val`, and, when a part is double-quoted,
the literal text is quoted to `qt val`. -/
def renderedAssign (r : Runner σ) (ar : Word → Int) (lit qt : Word → String)
    (v : Assign) : Prop :=
  v.Array = none → ∀ val, v.Value = some val →
    (∀ p ∈ val.Parts, p.unsupported = false) ∧
    (∀ st, (r.arithm val st).1 = ar val) ∧
    (∀ st, (r.literal val st).1 = lit val) ∧
    ((∃ t, WordPart.DblQuoted t ∈ val.Parts) → r.Quote (lit val) = .ok (qt val))

/-! ## Lemmas on the library functions -/

theorem Sprintd_samples :
    fmt.Sprintd 3 = "3" ∧ fmt.Sprintd 0 = "0" ∧ fmt.Sprintd (-13) = "-13" ∧
      fmt.Sprintd 1024 = "1024" := by
  decide

theorem dropWhile_all_iff {α : Type} (p : α → Bool) (l : List α) :
    (∀ a ∈ l.dropWhile p, p a = true) ↔ ∀ a ∈ l, p a = true := by
  constructor
  · intro h
    have hnil : l.dropWhile p = [] := by
      by_contra hne
      have h1 := List.head_dropWhile_not p l hne
      have h2 := h _ (List.head_mem hne)
      simp [h2] at h1
    exact List.dropWhile_eq_nil_iff.mp hnil
  · intro h
    have hnil : l.dropWhile p = [] := List.dropWhile_eq_nil_iff.mpr h
    simp [hnil]

theorem TrimSpace_eq_empty_iff (t : String) :
    strings.TrimSpace t = "" ↔ isBlank t = true := by
  unfold strings.TrimSpace isBlank
  rw [String.ext_iff]
  show ((t.data.dropWhile unicode.IsSpace).reverse.dropWhile unicode.IsSpace).reverse = [] ↔ _
  simp only [List.reverse_eq_nil_iff, List.dropWhile_eq_nil_iff,
    List.mem_reverse, List.all_eq_true]
  exact dropWhile_all_iff _ _

/-! ## The builder is only appended to -/

theorem traceArgs_append (r : Runner σ) (x : CallExpr) (b b1 : String) (s s1 : σ)
    (h : traceArgs r x b s = (some b1, s1)) : ∃ t, b1 = b ++ t := by
  unfold traceArgs at h
  split at h
  · simp only [Prod.mk.injEq, Option.some.injEq] at h
    exact ⟨"", by simp [← h.1]⟩
  · simp only at h
    split at h
    · simp only [Prod.mk.injEq, Option.some.injEq] at h
      exact ⟨_, h.1.symm⟩
    · split at h
      · simp only [Prod.mk.injEq, Option.some.injEq] at h
        exact ⟨_, by rw [← h.1, String.append_assoc, String.append_assoc]⟩
      · split at h
        · simp at h
        · simp only [Prod.mk.injEq, Option.some.injEq] at h
          exact ⟨_, by rw [← h.1, String.append_assoc, String.append_assoc]⟩

theorem traceParts_append (r : Runner σ) (x : CallExpr) (v : Assign) (val : Word) :
    ∀ (ws : List WordPart) (b b1 : String) (s s1 : σ),
      traceParts r x v val ws b s = (some b1, s1) → ∃ t, b1 = b ++ t := by
  intro ws
  induction ws with
  | nil =>
    intro b b1 s s1 h
    simp only [traceParts, Prod.mk.injEq, Option.some.injEq] at h
    exact ⟨"", by simp [← h.1]⟩
  | cons w ws ih =>
    intro b b1 s s1 h
    cases w <;> simp only [traceParts] at h
    case Lit =>
      obtain ⟨t, ht⟩ := ih _ _ _ _ h
      exact ⟨_, by rw [ht, String.append_assoc]⟩
    case SglQuoted =>
      obtain ⟨t, ht⟩ := ih _ _ _ _ h
      exact ⟨_, by rw [ht, String.append_assoc]⟩
    case ArithmExp =>
      obtain ⟨t, ht⟩ := ih _ _ _ _ h
      exact ⟨_, by rw [ht, String.append_assoc]⟩
    case DblQuoted =>
      split at h
      · simp at h
      · obtain ⟨t, ht⟩ := ih _ _ _ _ h
        exact ⟨_, by rw [ht, String.append_assoc]⟩
    all_goals simp at h

theorem traceAssigns_append (r : Runner σ) (x : CallExpr) :
    ∀ (vs : List Assign) (b b1 : String) (s s1 : σ),
      traceAssigns r x vs b s = (some b1, s1) → ∃ t, b1 = b ++ t := by
  intro vs
  induction vs with
  | nil =>
    intro b b1 s s1 h
    simp only [traceAssigns, Prod.mk.injEq, Option.some.injEq] at h
    exact ⟨"", by simp [← h.1]⟩
  | cons v vs ih =>
    intro b b1 s s1 h
    simp only [traceAssigns] at h
    split at h
    · obtain ⟨t, ht⟩ := ih _ _ _ _ h
      exact ⟨_, by rw [ht, String.append_assoc]⟩
    · split at h
      · split at h
        · simp at h
        · rename_i b2 s2 hp
          obtain ⟨t1, ht1⟩ := traceParts_append r x v _ _ _ _ _ _ hp
          obtain ⟨t, ht⟩ := ih _ _ _ _ h
          exact ⟨_, by rw [ht, ht1, String.append_assoc]⟩
      · exact ih _ _ _ _ h

theorem traceItems_append (r : Runner σ) (sep : String) :
    ∀ (items : List Word) (b : String), ∃ t, traceItems r sep items b = b ++ t := by
  intro items
  induction items with
  | nil => intro b; exact ⟨"", by simp [traceItems]⟩
  | cons item items ih =>
    intro b
    obtain ⟨t, ht⟩ := ih (b ++ r.Print (.Word item) ++ sep)
    exact ⟨_, by rw [traceItems, ht, String.append_assoc, String.append_assoc]⟩

theorem traceLet_append (r : Runner σ) (x : LetClause) :
    ∀ (es : List ArithmExpr) (b b1 : String) (s s1 : σ),
      traceLet r x es b s = (some b1, s1) → ∃ t, b1 = b ++ t := by
  intro es
  induction es with
  | nil =>
    intro b b1 s s1 h
    simp only [traceLet, Prod.mk.injEq, Option.some.injEq] at h
    exact ⟨"", by simp [← h.1]⟩
  | cons e es ih =>
    intro b b1 s s1 h
    cases e <;> simp only [traceLet] at h
    case Word =>
      split at h
      · simp at h
      · obtain ⟨t, ht⟩ := ih _ _ _ _ h
        exact ⟨_, by rw [ht, String.append_assoc]⟩
    all_goals
      obtain ⟨t, ht⟩ := ih _ _ _ _ h
      exact ⟨_, by rw [ht, String.append_assoc]⟩

theorem traceNode_append (r : Runner σ) (cm : Node) (b b1 : String) (s s1 : σ)
    (h : traceNode r cm b s = (some b1, s1)) : ∃ t, b1 = b ++ t := by
  cases cm <;> simp only [traceNode] at h
  case CallExpr x =>
    split at h
    · simp at h
    · rename_i b2 s2 ha
      obtain ⟨t1, ht1⟩ := traceArgs_append r x _ _ _ _ ha
      obtain ⟨t, ht⟩ := traceAssigns_append r x _ _ _ _ _ h
      exact ⟨_, by rw [ht, ht1, String.append_assoc]⟩
  case ForClause x =>
    split at h
    · split at h
      · simp only [Prod.mk.injEq, Option.some.injEq] at h
        obtain ⟨t, ht⟩ := traceItems_append r " " ‹_› (b ++ "select ")
        exact ⟨_, by rw [← h.1, ht, String.append_assoc]⟩
      · split at h
        · simp at h
        · simp only [Prod.mk.injEq, Option.some.injEq] at h
          rename_i name inPos items _ _ _
          obtain ⟨t, ht⟩ := traceItems_append r "" items (b ++ "for " ++ name ++ " in '")
          exact ⟨"for " ++ (name ++ (" in '" ++ (t ++ "'"))), by
            rw [← h.1, ht]; simp only [String.append_assoc]⟩
    · simp at h
  case CaseClause x =>
    simp only [Prod.mk.injEq, Option.some.injEq] at h
    exact ⟨"case " ++ (r.Print (.Word x.Word) ++ " in"), by
      rw [← h.1]; simp only [String.append_assoc]⟩
  case LetClause x => exact traceLet_append r x _ _ _ _ _ h
  all_goals simp at h

/-! ## Paths on which the source returns early -/

theorem traceParts_quote_fails (r : Runner σ) (x : CallExpr) (v : Assign) (val : Word)
    (hfail : ∀ st, ∃ e, r.Quote (r.literal val st).1 = .error e) :
    ∀ (ws : List WordPart) (b : String) (s : σ),
      (∃ t, WordPart.DblQuoted t ∈ ws) → (traceParts r x v val ws b s).1 = none := by
  intro ws
  induction ws with
  | nil => intro b s h; simp at h
  | cons w ws ih =>
    intro b s h
    obtain ⟨t, ht⟩ := h
    have htail : (∀ u, w ≠ .DblQuoted u) → ∃ t, WordPart.DblQuoted t ∈ ws := by
      intro hw
      rcases List.mem_cons.mp ht with h1 | h1
      · exact absurd h1.symm (hw t)
      · exact ⟨t, h1⟩
    cases w <;> simp only [traceParts]
    case DblQuoted u =>
      obtain ⟨e, he⟩ := hfail s
      rw [he]
    case Lit u => exact ih _ _ (htail (by simp))
    case SglQuoted u => exact ih _ _ (htail (by simp))
    case ArithmExp u => exact ih _ _ (htail (by simp))

theorem traceParts_unsupported (r : Runner σ) (x : CallExpr) (v : Assign) (val : Word) :
    ∀ (ws : List WordPart) (b : String) (s : σ),
      (∃ p ∈ ws, p.unsupported = true) → (traceParts r x v val ws b s).1 = none := by
  intro ws
  induction ws with
  | nil => intro b s h; simp at h
  | cons w ws ih =>
    intro b s h
    obtain ⟨p, hp, hu⟩ := h
    have htail : w.unsupported = false → ∃ p ∈ ws, p.unsupported = true := by
      intro hw
      rcases List.mem_cons.mp hp with h1 | h1
      · rw [h1, hw] at hu; simp at hu
      · exact ⟨p, h1, hu⟩
    cases w <;> simp only [traceParts]
    case DblQuoted u =>
      split
      · rfl
      · exact ih _ _ (htail rfl)
    case Lit u => exact ih _ _ (htail rfl)
    case SglQuoted u => exact ih _ _ (htail rfl)
    case ArithmExp u => exact ih _ _ (htail rfl)

theorem traceAssigns_abort (r : Runner σ) (x : CallExpr) (v : Assign) (val : Word)
    (hA : v.Array = none) (hV : v.Value = some val)
    (hp : ∀ b s, (traceParts r x v val val.Parts b s).1 = none) :
    ∀ (vs : List Assign) (b : String) (s : σ),
      v ∈ vs → (traceAssigns r x vs b s).1 = none := by
  intro vs
  induction vs with
  | nil => intro b s h; simp at h
  | cons u vs ih =>
    intro b s h
    rcases List.mem_cons.mp h with h1 | h1
    · subst h1
      simp only [traceAssigns, hA, hV]
      have h2 := hp b s
      rcases h3 : traceParts r x v val val.Parts b s with ⟨o, s1⟩
      rw [h3] at h2
      simp only at h2
      subst h2
      rfl
    · simp only [traceAssigns]
      split
      · exact ih _ _ h1
      · split
        · split
          · rfl
          · exact ih _ _ h1
        · exact ih _ _ h1

theorem traceExpr_call_abort (r : Runner σ) (x : CallExpr) (s : σ)
    (h : ∀ b st, (traceAssigns r x x.Assigns b st).1 = none) :
    (traceExpr r (.CallExpr x) s).1 = [] := by
  unfold traceExpr
  split
  · rfl
  · simp only [traceNode]
    rcases h1 : traceArgs r x "+ " s with ⟨o, s1⟩
    cases o with
    | none => rfl
    | some b1 =>
      simp only
      have h2 := h b1 s1
      rcases h3 : traceAssigns r x x.Assigns b1 s1 with ⟨o2, s2⟩
      rw [h3] at h2
      simp only at h2
      subst h2
      rfl

theorem traceLet_quote_fails (r : Runner σ) (x : LetClause) (w : Word)
    (hfail : ∀ st, ∃ e, r.Quote (r.literal w st).1 = .error e) :
    ∀ (es : List ArithmExpr) (b : String) (s : σ),
      ArithmExpr.Word w ∈ es → (traceLet r x es b s).1 = none := by
  intro es
  induction es with
  | nil => intro b s h; simp at h
  | cons e es ih =>
    intro b s h
    rcases List.mem_cons.mp h with h1 | h1
    · subst h1
      obtain ⟨e, he⟩ := hfail s
      simp only [traceLet, he]
    · cases e <;> simp only [traceLet]
      case Word u =>
        split
        · rfl
        · exact ih _ _ h1
      all_goals exact ih _ _ h1

theorem traceParts_all_dblQuoted (r : Runner σ) (x : CallExpr) (v : Assign) (val : Word)
    (l q : String) (hl : ∀ st, (r.literal val st).1 = l) (hq : r.Quote l = .ok q) :
    ∀ (ws : List WordPart) (b : String) (s : σ),
      (∀ p ∈ ws, ∃ t, p = WordPart.DblQuoted t) →
      (traceParts r x v val ws b s).1
        = some (b ++ repeatStr (v.Name ++ "=" ++ q) ws.length) := by
  intro ws
  induction ws with
  | nil => intro b s _; simp [traceParts, repeatStr]
  | cons w ws ih =>
    intro b s h
    obtain ⟨t, ht⟩ := h w (List.mem_cons_self _ _)
    subst ht
    simp only [traceParts, hl, hq, List.length_cons, repeatStr]
    rw [ih _ _ (fun p hp => h p (List.mem_cons_of_mem _ hp)), String.append_assoc]

/-! ## The items of a loop -/

theorem traceItems_eq (r : Runner σ) (sep : String) :
    ∀ (items : List Word) (b : String),
      traceItems r sep items b
        = b ++ concatStr (items.map fun i => r.Print (.Word i) ++ sep) := by
  intro items
  induction items with
  | nil => intro b; simp [traceItems, concatStr]
  | cons item items ih =>
    intro b
    simp only [traceItems, List.map_cons, concatStr]
    rw [ih, String.append_assoc, String.append_assoc, String.append_assoc]

theorem traceItems_eq_nosep (r : Runner σ) (items : List Word) (b : String) :
    traceItems r "" items b = b ++ concatStr (items.map fun i => r.Print (.Word i)) := by
  rw [traceItems_eq]
  simp

/-! ## Values and assignments that are rendered -/

theorem traceParts_verbatim (r : Runner σ) (x : CallExpr) (v : Assign) (val : Word) :
    ∀ (ws : List WordPart) (b : String) (s : σ),
      (∀ p ∈ ws, (∃ t, p = WordPart.SglQuoted t) ∨ (∃ t, p = WordPart.Lit t)) →
      traceParts r x v val ws b s
        = (some (b ++ repeatStr (r.Print (.CallExpr x)) ws.length), s) := by
  intro ws
  induction ws with
  | nil => intro b s _; simp [traceParts, repeatStr]
  | cons w ws ih =>
    intro b s h
    have hrest := ih (b ++ r.Print (.CallExpr x)) s
      (fun p hp => h p (List.mem_cons_of_mem _ hp))
    rcases h w (List.mem_cons_self _ _) with ⟨t, ht⟩ | ⟨t, ht⟩ <;> subst ht <;>
      simp only [traceParts, List.length_cons, repeatStr, hrest, String.append_assoc]

theorem traceParts_supported (r : Runner σ) (x : CallExpr) (v : Assign) (val : Word)
    (d : Int) (l q : String)
    (hd : ∀ st, (r.arithm val st).1 = d) (hl : ∀ st, (r.literal val st).1 = l) :
    ∀ (ws : List WordPart) (b : String) (s : σ),
      (∀ p ∈ ws, p.unsupported = false) →
      ((∃ t, WordPart.DblQuoted t ∈ ws) → r.Quote l = .ok q) →
      (traceParts r x v val ws b s).1
        = some (b ++ concatStr (ws.map (partSegment (r.Print (.CallExpr x)) v.Name d q))) := by
  intro ws
  induction ws with
  | nil => intro b s _ _; simp [traceParts, concatStr]
  | cons w ws ih =>
    intro b s hs hq
    have hs1 : ∀ p ∈ ws, p.unsupported = false := fun p hp => hs p (List.mem_cons_of_mem _ hp)
    have hq1 : (∃ t, WordPart.DblQuoted t ∈ ws) → r.Quote l = .ok q :=
      fun ⟨t, ht⟩ => hq ⟨t, List.mem_cons_of_mem _ ht⟩
    have hw := hs w (List.mem_cons_self _ _)
    cases w <;> simp only [WordPart.unsupported] at hw <;>
      simp only [traceParts, List.map_cons, concatStr, partSegment]
    case Lit t => rw [ih _ _ hs1 hq1, String.append_assoc]
    case SglQuoted t => rw [ih _ _ hs1 hq1, String.append_assoc]
    case ArithmExp t => rw [hd, ih _ _ hs1 hq1, String.append_assoc]
    case DblQuoted t =>
      rw [hl, hq ⟨t, List.mem_cons_self _ _⟩]
      simp only
      rw [ih _ _ hs1 hq1, String.append_assoc]
    all_goals simp at hw

theorem traceAssigns_supported (r : Runner σ) (x : CallExpr) (ar : Word → Int)
    (lit qt : Word → String) :
    ∀ (vs : List Assign) (b : String) (s : σ),
      (∀ v ∈ vs, renderedAssign r ar lit qt v) →
      (traceAssigns r x vs b s).1
        = some (b ++ concatStr (vs.map (assignSegment r ar qt x))) := by
  intro vs
  induction vs with
  | nil => intro b s _; simp [traceAssigns, concatStr]
  | cons v vs ih =>
    intro b s h
    have hrest : ∀ u ∈ vs, renderedAssign r ar lit qt u :=
      fun u hu => h u (List.mem_cons_of_mem _ hu)
    have hv := h v (List.mem_cons_self _ _)
    simp only [traceAssigns, List.map_cons, concatStr, assignSegment]
    cases hA : v.Array with
    | some arr =>
      simp only
      rw [ih _ _ hrest, String.append_assoc]
    | none =>
      cases hV : v.Value with
      | none =>
        simp only
        rw [ih _ _ hrest]
        simp
      | some val =>
        simp only
        obtain ⟨hs, hd, hl, hq⟩ := hv hA val hV
        have hp := traceParts_supported r x v val (ar val) (lit val) (qt val) hd hl
          val.Parts b s hs hq
        rcases hp2 : traceParts r x v val val.Parts b s with ⟨o, s1⟩
        rw [hp2] at hp
        simp only at hp
        subst hp
        simp only
        rw [ih _ _ hrest, String.append_assoc]

theorem traceAssigns_empty (r : Runner σ) (x : CallExpr) :
    ∀ (vs : List Assign) (b : String) (s : σ),
      (∀ v ∈ vs, v.Array = none ∧
        (v.Value = none ∨ ∃ val, v.Value = some val ∧ val.Parts = [])) →
      traceAssigns r x vs b s = (some b, s) := by
  intro vs
  induction vs with
  | nil => intro b s _; simp [traceAssigns]
  | cons v vs ih =>
    intro b s h
    have hrest := ih b s (fun u hu => h u (List.mem_cons_of_mem _ hu))
    obtain ⟨hA, hV⟩ := h v (List.mem_cons_self _ _)
    rcases hV with hV | ⟨val, hV, hparts⟩
    · simp only [traceAssigns, hA, hV, hrest]
    · simp only [traceAssigns, hA, hV, hparts, traceParts, hrest]

theorem traceLet_words (r : Runner σ) (x : LetClause) (lit qt : Word → String) :
    ∀ (ws : List Word) (b : String) (s : σ),
      (∀ w ∈ ws, ∀ st, (r.literal w st).1 = lit w) →
      (∀ w ∈ ws, r.Quote (lit w) = .ok (qt w)) →
      (traceLet r x (ws.map ArithmExpr.Word) b s).1
        = some (b ++ concatStr (ws.map fun w => "let " ++ qt w)) := by
  intro ws
  induction ws with
  | nil => intro b s _ _; simp [traceLet, concatStr]
  | cons w ws ih =>
    intro b s hl hq
    simp only [List.map_cons, traceLet, concatStr, hl w (List.mem_cons_self _ _),
      hq w (List.mem_cons_self _ _)]
    rw [ih _ _ (fun u hu => hl u (List.mem_cons_of_mem _ hu))
      (fun u hu => hq u (List.mem_cons_of_mem _ hu)), String.append_assoc]

/-! ## Lines and repeated strings -/

theorem repeatStr_length (t : String) (n : Nat) :
    (repeatStr t n).length = n * t.length := by
  induction n with
  | zero => simp [repeatStr]
  | succ n ih => simp [repeatStr, String.length_append, ih, Nat.succ_mul, Nat.add_comm]

theorem line_injective (a b : String) (h : "+ " ++ a ++ "\n" = "+ " ++ b ++ "\n") : a = b := by
  have h1 := congrArg String.data h
  simp only [String.data_append, List.append_assoc] at h1
  have h2 := List.append_cancel_left h1
  have h3 := List.append_cancel_right h2
  exact String.ext h3

/-! ## Two runs whose collaborators return the same results -/

theorem traceArgs_same {τ : Type} (R : σ → τ → Prop) (r1 : Runner σ) (r2 : Runner τ)
    (hag : SameResults R r1 r2) (x : CallExpr) (bld : String) (a : σ) (b : τ) (hR : R a b) :
    (traceArgs r1 x bld a).1 = (traceArgs r2 x bld b).1 ∧
      R (traceArgs r1 x bld a).2 (traceArgs r2 x bld b).2 := by
  unfold traceArgs
  cases x.Args with
  | nil => exact ⟨rfl, hR⟩
  | cons w rest =>
    obtain ⟨hf, hR1⟩ := hag.fields rest a b hR
    simp only [hf, hag.lit, hag.quote]
    split_ifs
    · exact ⟨rfl, hR1⟩
    · exact ⟨rfl, hR1⟩
    · cases r2.Quote (strings.Join (r2.fields rest b).1 " ") with
      | error e => exact ⟨rfl, hR1⟩
      | ok q => exact ⟨rfl, hR1⟩

theorem traceParts_same {τ : Type} (R : σ → τ → Prop) (r1 : Runner σ) (r2 : Runner τ)
    (hag : SameResults R r1 r2) (x : CallExpr) (v : Assign) (val : Word) :
    ∀ (ws : List WordPart) (bld : String) (a : σ) (b : τ), R a b →
      (traceParts r1 x v val ws bld a).1 = (traceParts r2 x v val ws bld b).1 ∧
        R (traceParts r1 x v val ws bld a).2 (traceParts r2 x v val ws bld b).2 := by
  intro ws
  induction ws with
  | nil => intro bld a b hR; exact ⟨rfl, hR⟩
  | cons w ws ih =>
    intro bld a b hR
    cases w <;> simp only [traceParts]
    case Lit t => rw [hag.print]; exact ih _ _ _ hR
    case SglQuoted t => rw [hag.print]; exact ih _ _ _ hR
    case ArithmExp t =>
      obtain ⟨hv, hR1⟩ := hag.arithm val a b hR
      rw [hv]
      exact ih _ _ _ hR1
    case DblQuoted t =>
      obtain ⟨hv, hR1⟩ := hag.literal val a b hR
      rw [hv, hag.quote]
      cases r2.Quote (r2.literal val b).1 with
      | error e => exact ⟨rfl, hR1⟩
      | ok q => exact ih _ _ _ hR1
    all_goals first | exact ⟨rfl, hR⟩ | exact ⟨trivial, hR⟩

theorem traceAssigns_same {τ : Type} (R : σ → τ → Prop) (r1 : Runner σ) (r2 : Runner τ)
    (hag : SameResults R r1 r2) (x : CallExpr) :
    ∀ (vs : List Assign) (bld : String) (a : σ) (b : τ), R a b →
      (traceAssigns r1 x vs bld a).1 = (traceAssigns r2 x vs bld b).1 ∧
        R (traceAssigns r1 x vs bld a).2 (traceAssigns r2 x vs bld b).2 := by
  intro vs
  induction vs with
  | nil => intro bld a b hR; exact ⟨rfl, hR⟩
  | cons v vs ih =>
    intro bld a b hR
    simp only [traceAssigns]
    cases v.Array with
    | some arr =>
      simp only
      rw [hag.print]
      exact ih _ _ _ hR
    | none =>
      cases v.Value with
      | none => exact ih _ _ _ hR
      | some val =>
        simp only
        obtain ⟨hp, hR1⟩ := traceParts_same R r1 r2 hag x v val val.Parts bld a b hR
        rcases h1 : traceParts r1 x v val val.Parts bld a with ⟨o1, a1⟩
        rcases h2 : traceParts r2 x v val val.Parts bld b with ⟨o2, b1⟩
        rw [h1, h2] at hp hR1
        simp only at hp hR1
        subst hp
        cases o1 with
        | none => exact ⟨rfl, hR1⟩
        | some b1 => exact ih _ _ _ hR1

theorem traceLet_same {τ : Type} (R : σ → τ → Prop) (r1 : Runner σ) (r2 : Runner τ)
    (hag : SameResults R r1 r2) (x : LetClause) :
    ∀ (es : List ArithmExpr) (bld : String) (a : σ) (b : τ), R a b →
      (traceLet r1 x es bld a).1 = (traceLet r2 x es bld b).1 ∧
        R (traceLet r1 x es bld a).2 (traceLet r2 x es bld b).2 := by
  intro es
  induction es with
  | nil => intro bld a b hR; exact ⟨rfl, hR⟩
  | cons e es ih =>
    intro bld a b hR
    cases e <;> simp only [traceLet]
    case Word w =>
      obtain ⟨hv, hR1⟩ := hag.literal w a b hR
      rw [hv, hag.quote]
      cases r2.Quote (r2.literal w b).1 with
      | error e => exact ⟨rfl, hR1⟩
      | ok q => exact ih _ _ _ hR1
    all_goals
      rw [hag.print]
      exact ih _ _ _ hR

theorem traceItems_same {τ : Type} (r1 : Runner σ) (r2 : Runner τ)
    (hp : ∀ n, r1.Print n = r2.Print n) (sep : String) :
    ∀ (items : List Word) (bld : String),
      traceItems r1 sep items bld = traceItems r2 sep items bld := by
  intro items
  induction items with
  | nil => intro bld; rfl
  | cons item items ih =>
    intro bld
    simp only [traceItems, hp, ih]

theorem traceNode_same {τ : Type} (R : σ → τ → Prop) (r1 : Runner σ) (r2 : Runner τ)
    (hag : SameResults R r1 r2) (cm : Node) (bld : String) (a : σ) (b : τ) (hR : R a b) :
    (traceNode r1 cm bld a).1 = (traceNode r2 cm bld b).1 ∧
      R (traceNode r1 cm bld a).2 (traceNode r2 cm bld b).2 := by
  cases cm <;> simp only [traceNode]
  case CallExpr x =>
    obtain ⟨hp, hR1⟩ := traceArgs_same R r1 r2 hag x bld a b hR
    rcases h1 : traceArgs r1 x bld a with ⟨o1, a1⟩
    rcases h2 : traceArgs r2 x bld b with ⟨o2, b1⟩
    rw [h1, h2] at hp hR1
    simp only at hp hR1
    subst hp
    cases o1 with
    | none => exact ⟨rfl, hR1⟩
    | some b1 => exact traceAssigns_same R r1 r2 hag x _ _ _ _ hR1
  case ForClause x =>
    cases x.Loop with
    | CStyleLoop t => exact ⟨rfl, hR⟩
    | WordIter name inPos items =>
      simp only [hag.isValid, traceItems_same r1 r2 hag.print]
      split_ifs
      · exact ⟨rfl, hR⟩
      · exact ⟨rfl, hR⟩
      · exact ⟨rfl, hR⟩
  case CaseClause x =>
    rw [hag.print]
    exact ⟨rfl, hR⟩
  case LetClause x => exact traceLet_same R r1 r2 hag x _ _ _ _ hR
  all_goals first | exact ⟨rfl, hR⟩ | exact ⟨trivial, hR⟩

/-- The shape of a trace line: the mark `+ `, a body, a newline. -/
theorem line_shape (t : String) :
    ("+ " ++ t ++ "\n").data.take 2 = ['+', ' '] ∧
      ("+ " ++ t ++ "\n").data.getLast? = some '\n' := by
  constructor
  · simp [String.data_append]
  · simp only [String.data_append]
    rw [List.getLast?_append]
    rfl

/-! ## Claims -/

/-- C1: when the xtrace option is disabled, `traceExpr` gives nothing to the
sink, for every node; it also leaves the runner state as it was, since no
collaborator is called. -/
theorem C1_disabled_writes_nothing (r : Runner σ) (cm : Node) (s : σ)
    (h : r.optXTrace s = false) : traceExpr r cm s = ([], s) := by
  simp [traceExpr, h]

/-- Witness of C1 on the call `cmd a b` with tracing disabled. -/
theorem C1_disabled_writes_nothing_witness :
    traceExpr (demoRunner false 3)
      (.CallExpr ⟨[], [litWord "cmd", litWord "a", litWord "b"]⟩) () = ([], ()) :=
  C1_disabled_writes_nothing (demoRunner false 3) _ () rfl

/-- C2: for every node, every runner state and every behaviour of the
collaborators, one call of `traceExpr` gives the sink at most one string, and
each string given starts with the two characters `+ ` and ends with a
newline; it is the mark, a body and the newline. -/
theorem C2_at_most_one_line_with_mark_and_newline (r : Runner σ) (cm : Node) (s : σ) :
    (traceExpr r cm s).1.length ≤ 1 ∧
      ∀ w ∈ (traceExpr r cm s).1,
        (∃ body : String, w = "+ " ++ body ++ "\n") ∧
          w.data.take 2 = ['+', ' '] ∧ w.data.getLast? = some '\n' := by
  unfold traceExpr
  split
  · simp
  · split
    · simp
    · rename_i b s1 hn
      obtain ⟨t, ht⟩ := traceNode_append r cm _ _ _ _ hn
      refine ⟨by simp, ?_⟩
      intro w hw
      simp only [List.mem_singleton] at hw
      subst hw
      subst ht
      exact ⟨⟨t, rfl⟩, line_shape t⟩

/-- C3: with tracing enabled, a call with arguments `a :: rest` and no
assignments, whose name `Lit a` is not `set`, whose fields `fs` joined by
single spaces are not blank and are quoted to `q`, gives the sink exactly the
line `+ name q`. -/
theorem C3_call_writes_name_and_quoted_fields (r : Runner σ) (x : CallExpr) (a : Word)
    (rest : List Word) (s : σ) (fs : List String) (q : String)
    (hon : r.optXTrace s = true) (hargs : x.Args = a :: rest) (hassigns : x.Assigns = [])
    (hname : r.Lit a ≠ "set") (hfs : (r.fields rest s).1 = fs)
    (hblank : isBlank (strings.Join fs " ") = false)
    (hq : r.Quote (strings.Join fs " ") = .ok q) :
    (traceExpr r (.CallExpr x) s).1 = ["+ " ++ r.Lit a ++ " " ++ q ++ "\n"] := by
  have htrim : ¬ strings.TrimSpace (strings.Join fs " ") = "" := by
    rw [TrimSpace_eq_empty_iff, hblank]; simp
  simp [traceExpr, traceNode, traceArgs, traceAssigns, hon, hargs, hassigns, hfs, htrim,
    hname, hq]

/-- Witness of C3: `cmd a b`, whose fields are `a` and `b`, is traced as
`+ cmd` followed by the quoted form of `a b`. -/
theorem C3_call_writes_name_and_quoted_fields_witness :
    (traceExpr (demoRunner true 3)
      (.CallExpr ⟨[], [litWord "cmd", litWord "a", litWord "b"]⟩) ()).1
      = ["+ cmd 'a b'\n"] :=
  C3_call_writes_name_and_quoted_fields (demoRunner true 3)
    ⟨[], [litWord "cmd", litWord "a", litWord "b"]⟩ (litWord "cmd")
    [litWord "a", litWord "b"] () ["a", "b"] "'a b'" rfl rfl rfl (by decide) rfl
    (by decide) rfl

/-- C4: with tracing enabled, a call with no assignments whose name is `set`
and whose joined fields `str` are not blank gives the sink exactly
`+ set str`, whatever function `quote` stands for the quoting service, one
that always fails included. -/
theorem C4_set_writes_unquoted_fields (r : Runner σ) (x : CallExpr) (a : Word)
    (rest : List Word) (s : σ) (fs : List String)
    (quote : String → Except QuoteError String)
    (hon : r.optXTrace s = true) (hargs : x.Args = a :: rest) (hassigns : x.Assigns = [])
    (hname : r.Lit a = "set") (hfs : (r.fields rest s).1 = fs)
    (hblank : isBlank (strings.Join fs " ") = false) :
    (traceExpr { r with Quote := quote } (.CallExpr x) s).1
      = ["+ set " ++ strings.Join fs " " ++ "\n"] := by
  have htrim : ¬ strings.TrimSpace (strings.Join fs " ") = "" := by
    rw [TrimSpace_eq_empty_iff, hblank]; simp
  simp [traceExpr, traceNode, traceArgs, traceAssigns, hon, hargs, hassigns, hfs, htrim,
    hname, String.append_assoc]

/-- Witness of C4: `set -e -x` is traced as `+ set -e -x` when the quoting
service fails on every string. -/
theorem C4_set_writes_unquoted_fields_witness :
    (traceExpr { demoRunner true 3 with Quote := fun _ => .error ⟨0, "no"⟩ }
      (.CallExpr ⟨[], [litWord "set", litWord "-e", litWord "-x"]⟩) ()).1
      = ["+ set -e -x\n"] :=
  C4_set_writes_unquoted_fields (demoRunner true 3)
    ⟨[], [litWord "set", litWord "-e", litWord "-x"]⟩ (litWord "set")
    [litWord "-e", litWord "-x"] () ["-e", "-x"] (fun _ => .error ⟨0, "no"⟩)
    rfl rfl rfl rfl rfl (by decide)

/-- C5: with tracing enabled, a call with arguments `a :: rest` and no
assignments whose joined fields are blank (empty or only white space) gives
the sink exactly `+ name`, for every name, `set` included, and whatever
function `quote` stands for the quoting service. -/
theorem C5_blank_fields_write_name_only (r : Runner σ) (x : CallExpr) (a : Word)
    (rest : List Word) (s : σ) (fs : List String)
    (quote : String → Except QuoteError String)
    (hon : r.optXTrace s = true) (hargs : x.Args = a :: rest) (hassigns : x.Assigns = [])
    (hfs : (r.fields rest s).1 = fs)
    (hblank : isBlank (strings.Join fs " ") = true) :
    (traceExpr { r with Quote := quote } (.CallExpr x) s).1
      = ["+ " ++ r.Lit a ++ "\n"] := by
  have htrim : strings.TrimSpace (strings.Join fs " ") = "" := by
    rw [TrimSpace_eq_empty_iff, hblank]
  simp [traceExpr, traceNode, traceArgs, traceAssigns, hon, hargs, hassigns, hfs, htrim]

/-- Witness of C5: the call `set` followed by two words of white space is
traced as `+ set`, the quoting service failing on every string. -/
theorem C5_blank_fields_write_name_only_witness :
    (traceExpr { demoRunner true 3 with Quote := fun _ => .error ⟨0, "no"⟩ }
      (.CallExpr ⟨[], [litWord "set", litWord " ", litWord "\t"]⟩) ()).1
      = ["+ set\n"] :=
  C5_blank_fields_write_name_only (demoRunner true 3)
    ⟨[], [litWord "set", litWord " ", litWord "\t"]⟩ (litWord "set")
    [litWord " ", litWord "\t"] () [" ", "\t"] (fun _ => .error ⟨0, "no"⟩)
    rfl rfl rfl rfl (by decide)

/-- C6: when the quoting service fails on a string that `traceExpr` submits
to it, nothing is given to the sink: (i) for a call whose name is not `set`
and whose joined fields are not blank, whatever its assignments; (ii) for a
call with a scalar assignment that has a double-quoted part, when quoting the
literal text of the value fails; (iii) for a let clause with a plain-word
expression, when quoting its literal text fails. Nothing is given when
tracing is disabled either, so the flag needs no mention. -/
theorem C6_quote_failure_writes_nothing (r : Runner σ) (s : σ) :
    (∀ (x : CallExpr) (a : Word) (rest : List Word) (e : QuoteError),
        x.Args = a :: rest → r.Lit a ≠ "set" →
        isBlank (strings.Join (r.fields rest s).1 " ") = false →
        r.Quote (strings.Join (r.fields rest s).1 " ") = .error e →
        (traceExpr r (.CallExpr x) s).1 = []) ∧
    (∀ (x : CallExpr) (v : Assign) (val : Word) (t : String),
        v ∈ x.Assigns → v.Array = none → v.Value = some val →
        WordPart.DblQuoted t ∈ val.Parts →
        (∀ st, ∃ e, r.Quote (r.literal val st).1 = .error e) →
        (traceExpr r (.CallExpr x) s).1 = []) ∧
    (∀ (x : LetClause) (w : Word),
        ArithmExpr.Word w ∈ x.Exprs →
        (∀ st, ∃ e, r.Quote (r.literal w st).1 = .error e) →
        (traceExpr r (.LetClause x) s).1 = []) := by
  refine ⟨?_, ?_, ?_⟩
  · intro x a rest e hargs hname hblank hq
    have htrim : ¬ strings.TrimSpace (strings.Join (r.fields rest s).1 " ") = "" := by
      rw [TrimSpace_eq_empty_iff, hblank]; simp
    unfold traceExpr
    split
    · rfl
    · simp [traceNode, traceArgs, hargs, htrim, hname, hq]
  · intro x v val t hv hA hV ht hfail
    apply traceExpr_call_abort
    intro b st
    exact traceAssigns_abort r x v val hA hV
      (fun b s => traceParts_quote_fails r x v val hfail _ b s ⟨t, ht⟩) _ b st hv
  · intro x w hw hfail
    unfold traceExpr
    split
    · rfl
    · simp only [traceNode]
      have h2 := traceLet_quote_fails r x w hfail x.Exprs "+ " s hw
      rcases h3 : traceLet r x x.Exprs "+ " s with ⟨o, s1⟩
      rw [h3] at h2
      simp only at h2
      subst h2
      rfl

/-- Witness of C6 with a quoting service that always fails: the call
`cmd a` with the assignment `x=3`, the call `x="a b"` after an arithmetic
assignment, and the let clause over the word `1` all give nothing. -/
theorem C6_quote_failure_writes_nothing_witness :
    (traceExpr failRunner (.CallExpr
        ⟨[⟨"x", some ⟨[.ArithmExp "3"]⟩, none⟩], [litWord "cmd", litWord "a"]⟩) ()).1 = [] ∧
    (traceExpr failRunner (.CallExpr
        ⟨[⟨"y", some ⟨[.ArithmExp "3"]⟩, none⟩,
          ⟨"x", some ⟨[.Lit "u", .DblQuoted "a b"]⟩, none⟩], []⟩) ()).1 = [] ∧
    (traceExpr failRunner (.LetClause ⟨[.BinaryArithm "1+2", .Word (litWord "1")]⟩) ()).1
      = [] :=
  ⟨(C6_quote_failure_writes_nothing failRunner ()).1 _ (litWord "cmd") [litWord "a"]
      ⟨0, "cannot quote"⟩ rfl (by decide) (by decide) rfl,
    (C6_quote_failure_writes_nothing failRunner ()).2.1 _
      ⟨"x", some ⟨[.Lit "u", .DblQuoted "a b"]⟩, none⟩ ⟨[.Lit "u", .DblQuoted "a b"]⟩ "a b"
      (by decide) rfl rfl (by decide) (fun _ => ⟨_, rfl⟩),
    (C6_quote_failure_writes_nothing failRunner ()).2.2 _ (litWord "1") (by decide)
      (fun _ => ⟨_, rfl⟩)⟩

/-- C7: a call, with any arguments and any other assignments, that has a
scalar assignment (no array value, a word value) whose value contains a
parameter expansion, command substitution, process substitution, extended
glob or brace expansion gives nothing to the sink. -/
theorem C7_unsupported_part_writes_nothing (r : Runner σ) (x : CallExpr) (v : Assign)
    (val : Word) (p : WordPart) (s : σ)
    (hv : v ∈ x.Assigns) (hA : v.Array = none) (hV : v.Value = some val)
    (hp : p ∈ val.Parts) (hu : p.unsupported = true) :
    (traceExpr r (.CallExpr x) s).1 = [] := by
  apply traceExpr_call_abort
  intro b st
  exact traceAssigns_abort r x v val hA hV
    (fun b s => traceParts_unsupported r x v val _ b s ⟨p, hp, hu⟩) _ b st hv

/-- Witness of C7: `cmd a` with the assignments `y=3` and `x=u$v`, the
second value ending in a parameter expansion, gives nothing, although the
command and the parts before the expansion were rendered. -/
theorem C7_unsupported_part_writes_nothing_witness :
    (traceExpr (demoRunner true 3) (.CallExpr
        ⟨[⟨"y", some ⟨[.ArithmExp "3"]⟩, none⟩,
          ⟨"x", some ⟨[.Lit "u", .ParamExp "v"]⟩, none⟩],
         [litWord "cmd", litWord "a"]⟩) ()).1 = [] :=
  C7_unsupported_part_writes_nothing (demoRunner true 3) _
    ⟨"x", some ⟨[.Lit "u", .ParamExp "v"]⟩, none⟩ ⟨[.Lit "u", .ParamExp "v"]⟩
    (.ParamExp "v") () (by decide) rfl rfl (by decide) rfl

/-- C8: every if-clause, while-clause, arithmetic command, test clause,
declaration clause and time clause, every node of a kind that no `case`
names, and every for-clause over a C-style loop gives nothing to the sink
and calls no collaborator: the runner state is unchanged. -/
theorem C8_unsupported_nodes_write_nothing (r : Runner σ) (cm : Node) (s : σ)
    (h : cm.untraced = true) : traceExpr r cm s = ([], s) := by
  unfold traceExpr
  split
  · rfl
  · cases cm <;> simp only [Node.untraced] at h <;> simp only [traceNode]
    case ForClause x =>
      split at h
      · rename_i hl
        simp only [hl]
      · simp at h
    all_goals simp at h

/-- Witness of C8 on a for-clause over a C-style loop. -/
theorem C8_unsupported_nodes_write_nothing_witness :
    traceExpr (demoRunner true 3) (.ForClause ⟨false, .CStyleLoop "i=0; i<3; i++"⟩) ()
      = ([], ()) :=
  C8_unsupported_nodes_write_nothing (demoRunner true 3) _ () rfl

/-- C9: with tracing enabled, a call with no arguments and one assignment,
scalar, whose value is a single arithmetic substitution, gives the sink
exactly `+ name=d`, `d` being the decimal form of the integer that the
arithmetic evaluator returns for the value. -/
theorem C9_arithmetic_assignment_line (r : Runner σ) (x : CallExpr) (v : Assign)
    (val : Word) (t : String) (s : σ)
    (hon : r.optXTrace s = true) (hargs : x.Args = []) (hassigns : x.Assigns = [v])
    (hA : v.Array = none) (hV : v.Value = some val) (hparts : val.Parts = [.ArithmExp t]) :
    (traceExpr r (.CallExpr x) s).1
      = ["+ " ++ v.Name ++ "=" ++ fmt.Sprintd (r.arithm val s).1 ++ "\n"] := by
  simp [traceExpr, traceNode, traceArgs, traceAssigns, traceParts, hon, hargs, hassigns,
    hA, hV, hparts, String.append_assoc]

/-- Witness of C9: `x=$((1+2))` with the evaluator returning 3 is traced as
`+ x=3`. -/
theorem C9_arithmetic_assignment_line_witness :
    (traceExpr (demoRunner true 3)
      (.CallExpr ⟨[⟨"x", some ⟨[.ArithmExp "1+2"]⟩, none⟩], []⟩) ()).1 = ["+ x=3\n"] :=
  C9_arithmetic_assignment_line (demoRunner true 3) _
    ⟨"x", some ⟨[.ArithmExp "1+2"]⟩, none⟩ ⟨[.ArithmExp "1+2"]⟩ "1+2" () rfl rfl rfl rfl rfl
    rfl

/-- C10, as stated, fails: for `x="a b""c d"`, a value of two double-quoted
parts, with a literal text that concatenates the parts and a quoting service
that wraps in single quotes, the line written is `+ x='a bc d'x='a bc d'`,
each segment quoting the literal text of the whole value, and not the line
`+ x='a b'x='c d'` made from the literal text of each part. -/
theorem C10_per_part_literal_counterexample :
    (traceExpr (demoRunner true 3) (.CallExpr
        ⟨[⟨"x", some ⟨[.DblQuoted "a b", .DblQuoted "c d"]⟩, none⟩], []⟩) ()).1
      = ["+ x='a bc d'x='a bc d'\n"] ∧
    perPartLine (demoRunner true 3) "x" [.DblQuoted "a b", .DblQuoted "c d"] ()
      = "+ x='a b'x='c d'\n" ∧
    (traceExpr (demoRunner true 3) (.CallExpr
        ⟨[⟨"x", some ⟨[.DblQuoted "a b", .DblQuoted "c d"]⟩, none⟩], []⟩) ()).1
      ≠ [perPartLine (demoRunner true 3) "x" [.DblQuoted "a b", .DblQuoted "c d"] ()] := by
  decide

/-- C10, amended: with tracing enabled, for a call with no arguments and one
scalar assignment `name=V` all of whose parts are double-quoted, where the
literal text of the whole value `V` is `l` and is quoted to `q`, every part
is rendered as `name=q`: the line is the mark, one such segment per part,
and the newline. -/
theorem C10_dblquoted_parts_quote_whole_value (r : Runner σ) (x : CallExpr) (v : Assign)
    (val : Word) (l q : String) (s : σ)
    (hon : r.optXTrace s = true) (hargs : x.Args = []) (hassigns : x.Assigns = [v])
    (hA : v.Array = none) (hV : v.Value = some val)
    (hall : ∀ p ∈ val.Parts, ∃ t, p = WordPart.DblQuoted t)
    (hl : ∀ st, (r.literal val st).1 = l) (hq : r.Quote l = .ok q) :
    (traceExpr r (.CallExpr x) s).1
      = ["+ " ++ repeatStr (v.Name ++ "=" ++ q) val.Parts.length ++ "\n"] := by
  have h1 := traceParts_all_dblQuoted r x v val l q hl hq val.Parts "+ " s hall
  rcases h2 : traceParts r x v val val.Parts "+ " s with ⟨o, s1⟩
  rw [h2] at h1
  simp only at h1
  subst h1
  simp [traceExpr, traceNode, traceArgs, traceAssigns, hon, hargs, hassigns, hA, hV, h2]

/-- Witness of the amended C10: `x="a b"`, quoted to `'a b'`, is traced as
`+ x='a b'`. -/
theorem C10_dblquoted_parts_quote_whole_value_witness :
    (traceExpr (demoRunner true 3)
      (.CallExpr ⟨[⟨"x", some ⟨[.DblQuoted "a b"]⟩, none⟩], []⟩) ()).1 = ["+ x='a b'\n"] :=
  C10_dblquoted_parts_quote_whole_value (demoRunner true 3) _
    ⟨"x", some ⟨[.DblQuoted "a b"]⟩, none⟩ ⟨[.DblQuoted "a b"]⟩ "a b" "'a b'" () rfl rfl rfl
    rfl rfl (by simp) (fun _ => rfl) rfl

/-- C11: with tracing enabled, a for-clause that is not a select, over a word
list with loop variable `name` and items `items`: when the position of `in`
is valid the line is `+ for name in '`, the renderings of the items with
nothing between them, and `'`; when it is not valid nothing is written. -/
theorem C11_for_clause_line (r : Runner σ) (x : ForClause) (name : String) (inPos : Pos)
    (items : List Word) (s : σ)
    (hon : r.optXTrace s = true) (hsel : x.Select = false)
    (hloop : x.Loop = .WordIter name inPos items) :
    (r.IsValid inPos = true →
      (traceExpr r (.ForClause x) s).1
        = ["+ for " ++ name ++ " in '"
            ++ concatStr (items.map fun i => r.Print (.Word i)) ++ "'\n"]) ∧
    (r.IsValid inPos = false → (traceExpr r (.ForClause x) s).1 = []) := by
  constructor
  · intro hv
    have hq : "'" ++ "\n" = "'\n" := by decide
    simp [traceExpr, traceNode, hon, hsel, hloop, hv, traceItems_eq_nosep,
      String.append_assoc, hq]
  · intro hv
    simp [traceExpr, traceNode, hon, hsel, hloop, hv]

/-- Witness of C11: `for i in a b c` is traced as `+ for i in 'abc'` when
the position of `in` is valid, and not at all when it is not. -/
theorem C11_for_clause_line_witness :
    (traceExpr (demoRunner true 3) (.ForClause
        ⟨false, .WordIter "i" ⟨7, 1, 7⟩ [litWord "a", litWord "b", litWord "c"]⟩) ()).1
      = ["+ for i in 'abc'\n"] ∧
    (traceExpr (demoRunner true 3) (.ForClause
        ⟨false, .WordIter "i" ⟨0, 0, 0⟩ [litWord "a", litWord "b", litWord "c"]⟩) ()).1
      = [] :=
  ⟨(C11_for_clause_line (demoRunner true 3) _ "i" ⟨7, 1, 7⟩
      [litWord "a", litWord "b", litWord "c"] () rfl rfl rfl).1 rfl,
    (C11_for_clause_line (demoRunner true 3) _ "i" ⟨0, 0, 0⟩
      [litWord "a", litWord "b", litWord "c"] () rfl rfl rfl).2 rfl⟩

/-- C12: with tracing enabled, a select clause over a word list is traced as
`+ select ` followed by the rendering of each item with one space after it,
so the line ends in a space before the newline; the loop variable `name`
and the position `inPos` of `in`, valid or not, play no part. -/
theorem C12_select_clause_line (r : Runner σ) (x : ForClause) (name : String) (inPos : Pos)
    (items : List Word) (s : σ)
    (hon : r.optXTrace s = true) (hsel : x.Select = true)
    (hloop : x.Loop = .WordIter name inPos items) :
    (traceExpr r (.ForClause x) s).1
      = ["+ select " ++ concatStr (items.map fun i => r.Print (.Word i) ++ " ") ++ "\n"] := by
  simp [traceExpr, traceNode, hon, hsel, hloop, traceItems_eq, String.append_assoc]

/-- Witness of C12: `select i in a b`, with a position of `in` that is not
valid, is traced as `+ select a b ` and a newline. -/
theorem C12_select_clause_line_witness :
    (traceExpr (demoRunner true 3) (.ForClause
        ⟨true, .WordIter "i" ⟨0, 0, 0⟩ [litWord "a", litWord "b"]⟩) ()).1
      = ["+ select a b \n"] :=
  C12_select_clause_line (demoRunner true 3) _ "i" ⟨0, 0, 0⟩ [litWord "a", litWord "b"] ()
    rfl rfl rfl

/-- C13: with tracing enabled, a case clause is traced as `+ case `, the
rendering of its word and ` in`; two case clauses with the same word give
the same line, whatever their arms are. -/
theorem C13_case_clause_line (r : Runner σ) (x : CaseClause) (s : σ)
    (hon : r.optXTrace s = true) :
    (traceExpr r (.CaseClause x) s).1 = ["+ case " ++ r.Print (.Word x.Word) ++ " in\n"] ∧
    ∀ y : CaseClause, y.Word = x.Word →
      (traceExpr r (.CaseClause y) s).1 = (traceExpr r (.CaseClause x) s).1 := by
  have hq : " in" ++ "\n" = " in\n" := by decide
  constructor
  · simp [traceExpr, traceNode, hon, String.append_assoc, hq]
  · intro y hy
    simp [traceExpr, traceNode, hon, hy]

/-- Witness of C13: a case clause on the word `$x` is traced as
`+ case $x in`, and a clause with one arm gives the line of the clause with
none. -/
theorem C13_case_clause_line_witness :
    (traceExpr (demoRunner true 3) (.CaseClause ⟨⟨[.ParamExp "$x"]⟩, []⟩) ()).1
      = ["+ case $x in\n"] ∧
    (traceExpr (demoRunner true 3)
        (.CaseClause ⟨⟨[.ParamExp "$x"]⟩, [⟨[litWord "a"]⟩]⟩) ()).1
      = (traceExpr (demoRunner true 3) (.CaseClause ⟨⟨[.ParamExp "$x"]⟩, []⟩) ()).1 :=
  ⟨(C13_case_clause_line (demoRunner true 3) ⟨⟨[.ParamExp "$x"]⟩, []⟩ () rfl).1,
    (C13_case_clause_line (demoRunner true 3) ⟨⟨[.ParamExp "$x"]⟩, []⟩ () rfl).2
      ⟨⟨[.ParamExp "$x"]⟩, [⟨[litWord "a"]⟩]⟩ rfl⟩

/-- C14: with tracing enabled, a let clause whose expressions are the plain
words `ws`, where the literal text of each word `w` is `lit w` and is quoted
to `qt w`, is traced as the mark followed, for each expression in order, by
`let ` and the quoted literal text, and the newline; for a single word `w`
the line is exactly `+ let ` followed by `qt w`. -/
theorem C14_let_clause_line (r : Runner σ) (x : LetClause) (ws : List Word)
    (lit qt : Word → String) (s : σ)
    (hon : r.optXTrace s = true) (hexprs : x.Exprs = ws.map ArithmExpr.Word)
    (hl : ∀ w ∈ ws, ∀ st, (r.literal w st).1 = lit w)
    (hq : ∀ w ∈ ws, r.Quote (lit w) = .ok (qt w)) :
    (traceExpr r (.LetClause x) s).1
      = ["+ " ++ concatStr (ws.map fun w => "let " ++ qt w) ++ "\n"] ∧
    ∀ w, ws = [w] → (traceExpr r (.LetClause x) s).1 = ["+ let " ++ qt w ++ "\n"] := by
  have h1 := traceLet_words r x lit qt ws "+ " s hl hq
  rw [← hexprs] at h1
  rcases h2 : traceLet r x x.Exprs "+ " s with ⟨o, s1⟩
  rw [h2] at h1
  simp only at h1
  subst h1
  have hout : (traceExpr r (.LetClause x) s).1
      = ["+ " ++ concatStr (ws.map fun w => "let " ++ qt w) ++ "\n"] := by
    simp [traceExpr, traceNode, hon, h2]
  refine ⟨hout, ?_⟩
  intro w hw
  have hm : "+ " ++ "let " = "+ let " := by decide
  rw [hout, hw]
  simp only [List.map_cons, List.map_nil, concatStr, String.append_empty]
  rw [← String.append_assoc "+ ", hm]

/-- Witness of C14: `let 1+2` given as one plain word is traced as
`+ let '1+2'`, and the clause of the words `1` and `2` as
`+ let '1'let '2'`. -/
theorem C14_let_clause_line_witness :
    (traceExpr (demoRunner true 3) (.LetClause ⟨[.Word (litWord "1+2")]⟩) ()).1
      = ["+ let '1+2'\n"] ∧
    (traceExpr (demoRunner true 3)
        (.LetClause ⟨[.Word (litWord "1"), .Word (litWord "2")]⟩) ()).1
      = ["+ let '1'let '2'\n"] :=
  ⟨(C14_let_clause_line (demoRunner true 3) ⟨[.Word (litWord "1+2")]⟩ [litWord "1+2"]
      wordText (fun w => "'" ++ wordText w ++ "'") () rfl rfl (fun _ _ _ => rfl)
      (fun _ _ => rfl)).2 (litWord "1+2") rfl,
    (C14_let_clause_line (demoRunner true 3)
      ⟨[.Word (litWord "1"), .Word (litWord "2")]⟩ [litWord "1", litWord "2"]
      wordText (fun w => "'" ++ wordText w ++ "'") () rfl rfl (fun _ _ _ => rfl)
      (fun _ _ => rfl)).1⟩

/-- C15: with tracing enabled, a call with no arguments and one assignment,
which has an array value `arr`, is traced as the mark, the rendering of the
whole call by the printer, and the newline, whatever `arr` holds; no
collaborator with state is called. -/
theorem C15_array_assignment_line (r : Runner σ) (x : CallExpr) (v : Assign)
    (arr : ArrayExpr) (s : σ)
    (hon : r.optXTrace s = true) (hargs : x.Args = []) (hassigns : x.Assigns = [v])
    (hA : v.Array = some arr) :
    traceExpr r (.CallExpr x) s = (["+ " ++ r.Print (.CallExpr x) ++ "\n"], s) := by
  simp [traceExpr, traceNode, traceArgs, traceAssigns, hon, hargs, hassigns, hA]

/-- Witness of C15: `x=(a $b)`, an array with a parameter expansion among
its elements, is traced as its rendering by the printer. -/
theorem C15_array_assignment_line_witness :
    traceExpr printRunner
        (.CallExpr ⟨[⟨"x", none, some ⟨[litWord "a", ⟨[.ParamExp "$b"]⟩]⟩⟩], []⟩) ()
      = (["+ x=(a $b)\n"], ()) :=
  C15_array_assignment_line printRunner _ ⟨"x", none, some ⟨[litWord "a", ⟨[.ParamExp "$b"]⟩]⟩⟩
    ⟨[litWord "a", ⟨[.ParamExp "$b"]⟩]⟩ () rfl rfl rfl rfl

/-- C16, as stated, fails: `x=a'b'`, one scalar assignment whose value is a
literal followed by a single-quoted fragment, is traced as
`+ x=a'b'x=a'b'`, the rendering of the call twice, and not as `+ x=a'b'`. -/
theorem C16_rendered_once_counterexample :
    (traceExpr printRunner
        (.CallExpr ⟨[⟨"x", some ⟨[.Lit "a", .SglQuoted "b"]⟩, none⟩], []⟩) ()).1
      = ["+ x=a'b'x=a'b'\n"] ∧
    printRunner.Print (.CallExpr ⟨[⟨"x", some ⟨[.Lit "a", .SglQuoted "b"]⟩, none⟩], []⟩)
      = "x=a'b'" ∧
    (traceExpr printRunner
        (.CallExpr ⟨[⟨"x", some ⟨[.Lit "a", .SglQuoted "b"]⟩, none⟩], []⟩) ()).1
      ≠ ["+ " ++ printRunner.Print
          (.CallExpr ⟨[⟨"x", some ⟨[.Lit "a", .SglQuoted "b"]⟩, none⟩], []⟩) ++ "\n"] := by
  decide

/-- C16, amended: with tracing enabled, a call with no arguments and one
scalar assignment all of whose parts are single-quoted fragments or
literals is traced as the mark, the rendering of the whole call once for
each part of the value, and the newline. For a value of one
part this is the mark, the rendering and the newline; and when the rendering
is not empty that line is written only for a value of one part. -/
theorem C16_verbatim_once_per_part (r : Runner σ) (x : CallExpr) (v : Assign)
    (val : Word) (s : σ)
    (hon : r.optXTrace s = true) (hargs : x.Args = []) (hassigns : x.Assigns = [v])
    (hA : v.Array = none) (hV : v.Value = some val)
    (hall : ∀ p ∈ val.Parts, (∃ t, p = WordPart.SglQuoted t) ∨ (∃ t, p = WordPart.Lit t)) :
    (traceExpr r (.CallExpr x) s).1
      = ["+ " ++ repeatStr (r.Print (.CallExpr x)) val.Parts.length ++ "\n"] ∧
    (val.Parts.length = 1 →
      (traceExpr r (.CallExpr x) s).1 = ["+ " ++ r.Print (.CallExpr x) ++ "\n"]) ∧
    (r.Print (.CallExpr x) ≠ "" →
      (traceExpr r (.CallExpr x) s).1 = ["+ " ++ r.Print (.CallExpr x) ++ "\n"] →
      val.Parts.length = 1) := by
  have hout : (traceExpr r (.CallExpr x) s).1
      = ["+ " ++ repeatStr (r.Print (.CallExpr x)) val.Parts.length ++ "\n"] := by
    simp [traceExpr, traceNode, traceArgs, traceAssigns, hon, hargs, hassigns, hA, hV,
      traceParts_verbatim r x v val val.Parts "+ " s hall]
  refine ⟨hout, ?_, ?_⟩
  · intro h1
    rw [hout, h1]
    simp [repeatStr]
  · intro hne h1
    rw [hout] at h1
    have h2 := line_injective _ _ (List.singleton_inj.mp h1)
    have h3 := congrArg String.length h2
    rw [repeatStr_length] at h3
    have hpos : 0 < (r.Print (.CallExpr x)).length := by
      rcases Nat.eq_zero_or_pos (r.Print (.CallExpr x)).length with h0 | h0
      · exact absurd (String.ext (List.length_eq_zero.mp h0)) hne
      · exact h0
    have h4 : val.Parts.length * (r.Print (.CallExpr x)).length
        = 1 * (r.Print (.CallExpr x)).length := by rw [h3, Nat.one_mul]
    exact Nat.eq_of_mul_eq_mul_right hpos h4

/-- Witness of the amended C16: `x='a b'`, a value of one single-quoted
part, is traced as `+ x='a b'`. -/
theorem C16_verbatim_once_per_part_witness :
    (traceExpr printRunner
        (.CallExpr ⟨[⟨"x", some ⟨[.SglQuoted "a b"]⟩, none⟩], []⟩) ()).1
      = ["+ x='a b'\n"] :=
  (C16_verbatim_once_per_part printRunner _ ⟨"x", some ⟨[.SglQuoted "a b"]⟩, none⟩
    ⟨[.SglQuoted "a b"]⟩ () rfl rfl rfl rfl rfl (by simp)).2.1 rfl

/-- C17: two invocations of `traceExpr` on the same node with tracing
enabled, by runners whose collaborators return the same results, give the
sink the same strings: byte-identical lines, or nothing in both. The states
they end in are related again. -/
theorem C17_same_results_same_line {τ : Type} (R : σ → τ → Prop) (r1 : Runner σ)
    (r2 : Runner τ) (cm : Node) (a : σ) (b : τ)
    (hag : SameResults R r1 r2) (hR : R a b)
    (h1 : r1.optXTrace a = true) (h2 : r2.optXTrace b = true) :
    (traceExpr r1 cm a).1 = (traceExpr r2 cm b).1 ∧
      R (traceExpr r1 cm a).2 (traceExpr r2 cm b).2 := by
  obtain ⟨hp, hR1⟩ := traceNode_same R r1 r2 hag cm "+ " a b hR
  rcases h3 : traceNode r1 cm "+ " a with ⟨o1, a1⟩
  rcases h4 : traceNode r2 cm "+ " b with ⟨o2, b1⟩
  rw [h3, h4] at hp hR1
  simp only at hp hR1
  subst hp
  cases o1 with
  | none => simp [traceExpr, h1, h2, h3, h4, hR1]
  | some bld => simp [traceExpr, h1, h2, h3, h4, hR1]

/-- Witness of C17: on the call `cmd a` with the assignments `y=$((1+2))`
and `x="a b"`, the runner without state and the runner that counts its
calls return the same results and write the same line. -/
theorem C17_same_results_same_line_witness :
    (traceExpr (demoRunner true 3) (.CallExpr
        ⟨[⟨"y", some ⟨[.ArithmExp "1+2"]⟩, none⟩, ⟨"x", some ⟨[.DblQuoted "a b"]⟩, none⟩],
         [litWord "cmd", litWord "a"]⟩) ()).1
      = (traceExpr countingRunner (.CallExpr
        ⟨[⟨"y", some ⟨[.ArithmExp "1+2"]⟩, none⟩, ⟨"x", some ⟨[.DblQuoted "a b"]⟩, none⟩],
         [litWord "cmd", litWord "a"]⟩) 0).1 :=
  (C17_same_results_same_line (fun _ _ => True) (demoRunner true 3) countingRunner _ () 0
    ⟨fun _ _ _ _ => ⟨rfl, trivial⟩, fun _ _ _ _ => ⟨rfl, trivial⟩,
      fun _ _ _ _ => ⟨rfl, trivial⟩, fun _ => rfl, fun _ => rfl, fun _ => rfl, fun _ => rfl⟩
    trivial rfl rfl).1

/-- C18: with tracing enabled, for a call with arguments `a :: rest` whose
assignments are all rendered, the body of the line is the segment of the
command (the name, or the name, a space and the joined or quoted fields)
followed at once by the segments of the assignments in the order of the
list, with nothing between any two segments. -/
theorem C18_command_then_assignments (r : Runner σ) (x : CallExpr) (a : Word)
    (rest : List Word) (s : σ) (fs : List String) (q : String)
    (ar : Word → Int) (lit qt : Word → String)
    (hon : r.optXTrace s = true) (hargs : x.Args = a :: rest)
    (hfs : (r.fields rest s).1 = fs)
    (hq : isBlank (strings.Join fs " ") = false → r.Lit a ≠ "set" →
      r.Quote (strings.Join fs " ") = .ok q)
    (hsup : ∀ v ∈ x.Assigns, renderedAssign r ar lit qt v) :
    (traceExpr r (.CallExpr x) s).1
      = ["+ " ++ commandSegment (r.Lit a) (strings.Join fs " ") q
          ++ concatStr (x.Assigns.map (assignSegment r ar qt x)) ++ "\n"] := by
  have hcmd : traceArgs r x "+ " s
      = (some ("+ " ++ commandSegment (r.Lit a) (strings.Join fs " ") q),
          (r.fields rest s).2) := by
    unfold traceArgs commandSegment
    simp only [hargs, hfs, TrimSpace_eq_empty_iff]
    by_cases hb : isBlank (strings.Join fs " ") = true
    · simp [hb]
    · by_cases hs : r.Lit a = "set"
      · have e : "+ " ++ "set " = "+ set " := by decide
        simp [hb, hs, String.append_assoc]
        rw [← String.append_assoc, e]
      · have hb1 : isBlank (strings.Join fs " ") = false := by simpa using hb
        simp [hb, hs, hq hb1 hs, String.append_assoc]
  have hasg := traceAssigns_supported r x ar lit qt x.Assigns
    ("+ " ++ commandSegment (r.Lit a) (strings.Join fs " ") q) (r.fields rest s).2 hsup
  rcases h2 : traceAssigns r x x.Assigns
    ("+ " ++ commandSegment (r.Lit a) (strings.Join fs " ") q) (r.fields rest s).2
    with ⟨o, s1⟩
  rw [h2] at hasg
  simp only at hasg
  subst hasg
  simp [traceExpr, traceNode, hon, hcmd, h2]

/-- Witness of C18: the command `cmd` with blank fields and the assignment
`x=$((1+2))`, evaluated to 3, is traced as `+ cmdx=3`; with the fields `a`
and `b` and a second assignment `y="c d"` the line is
`+ cmd 'a b'x=3y='c d'`. -/
theorem C18_command_then_assignments_witness :
    (traceExpr (demoRunner true 3) (.CallExpr
        ⟨[⟨"x", some ⟨[.ArithmExp "1+2"]⟩, none⟩], [litWord "cmd"]⟩) ()).1
      = ["+ cmdx=3\n"] ∧
    (traceExpr (demoRunner true 3) (.CallExpr
        ⟨[⟨"x", some ⟨[.ArithmExp "1+2"]⟩, none⟩, ⟨"y", some ⟨[.DblQuoted "c d"]⟩, none⟩],
         [litWord "cmd", litWord "a", litWord "b"]⟩) ()).1
      = ["+ cmd 'a b'x=3y='c d'\n"] :=
  ⟨C18_command_then_assignments (demoRunner true 3)
      ⟨[⟨"x", some ⟨[.ArithmExp "1+2"]⟩, none⟩], [litWord "cmd"]⟩ (litWord "cmd") [] () []
      "" (fun _ => 3) wordText (fun w => "'" ++ wordText w ++ "'") rfl rfl rfl
      (fun h => absurd h (by decide))
      (fun v hv _ val hval => ⟨by
        simp only [List.mem_singleton] at hv
        subst hv
        cases hval
        decide, fun _ => rfl, fun _ => rfl, fun _ => rfl⟩),
    C18_command_then_assignments (demoRunner true 3)
      ⟨[⟨"x", some ⟨[.ArithmExp "1+2"]⟩, none⟩, ⟨"y", some ⟨[.DblQuoted "c d"]⟩, none⟩],
        [litWord "cmd", litWord "a", litWord "b"]⟩ (litWord "cmd")
      [litWord "a", litWord "b"] () ["a", "b"] "'a b'" (fun _ => 3) wordText
      (fun w => "'" ++ wordText w ++ "'") rfl rfl rfl (fun _ _ => rfl)
      (fun v hv _ val hval => ⟨by
        simp only [List.mem_cons, List.mem_singleton, List.not_mem_nil, or_false] at hv
        rcases hv with hv | hv <;> subst hv <;> cases hval <;> decide,
        fun _ => rfl, fun _ => rfl, fun _ => rfl⟩)⟩

/-- C19: with tracing enabled, a call with no arguments, each of whose
assignments has no array value and either no word value or a word value
with no parts (a call with no assignments among them), gives the sink
exactly the mark and the newline, and calls no collaborator with state. -/
theorem C19_empty_body_line (r : Runner σ) (x : CallExpr) (s : σ)
    (hon : r.optXTrace s = true) (hargs : x.Args = [])
    (hempty : ∀ v ∈ x.Assigns, v.Array = none ∧
      (v.Value = none ∨ ∃ val, v.Value = some val ∧ val.Parts = [])) :
    traceExpr r (.CallExpr x) s = (["+ \n"], s) := by
  have hq : "+ " ++ "\n" = "+ \n" := by decide
  simp [traceExpr, traceNode, traceArgs, hon, hargs,
    traceAssigns_empty r x x.Assigns "+ " s hempty, hq]

/-- Witness of C19: the call with no arguments and the assignments `x=`,
without a value, and `y=` with a value of no parts is traced as the mark
alone. -/
theorem C19_empty_body_line_witness :
    traceExpr (demoRunner true 3)
        (.CallExpr ⟨[⟨"x", none, none⟩, ⟨"y", some ⟨[]⟩, none⟩], []⟩) ()
      = (["+ \n"], ()) :=
  C19_empty_body_line (demoRunner true 3) ⟨[⟨"x", none, none⟩, ⟨"y", some ⟨[]⟩, none⟩], []⟩ ()
    rfl rfl (by decide)

/-- C20: with tracing enabled, for a call with no arguments and one scalar
assignment `name=V`: when all `n` parts of `V` are single-quoted fragments
or literals, the line is the mark, `n` copies of the rendering of the whole
call, and the newline; and when no part of `V` is unsupported, the line is
the mark, one segment for each part, and the newline, where the segment of
an arithmetic part is `name=d` for the integer `d` that the evaluator
returns for `V`, the segment of a double-quoted part is `name=q` for the
quoted form `q` of the literal text `l` of `V`, and the segment of a
single-quoted or literal part is the rendering of the whole call. -/
theorem C20_one_segment_per_part (r : Runner σ) (x : CallExpr) (v : Assign)
    (val : Word) (s : σ) (d : Int) (l q : String)
    (hon : r.optXTrace s = true) (hargs : x.Args = []) (hassigns : x.Assigns = [v])
    (hA : v.Array = none) (hV : v.Value = some val) :
    ((∀ p ∈ val.Parts, (∃ t, p = WordPart.SglQuoted t) ∨ (∃ t, p = WordPart.Lit t)) →
      (traceExpr r (.CallExpr x) s).1
        = ["+ " ++ repeatStr (r.Print (.CallExpr x)) val.Parts.length ++ "\n"]) ∧
    ((∀ p ∈ val.Parts, p.unsupported = false) →
      (∀ st, (r.arithm val st).1 = d) → (∀ st, (r.literal val st).1 = l) →
      ((∃ t, WordPart.DblQuoted t ∈ val.Parts) → r.Quote l = .ok q) →
      (traceExpr r (.CallExpr x) s).1
        = ["+ " ++ concatStr (val.Parts.map
            (partSegment (r.Print (.CallExpr x)) v.Name d q)) ++ "\n"]) := by
  constructor
  · intro hall
    simp [traceExpr, traceNode, traceArgs, traceAssigns, hon, hargs, hassigns, hA, hV,
      traceParts_verbatim r x v val val.Parts "+ " s hall]
  · intro hs hd hl hq
    have h1 := traceParts_supported r x v val d l q hd hl val.Parts "+ " s hs hq
    rcases h2 : traceParts r x v val val.Parts "+ " s with ⟨o, s1⟩
    rw [h2] at h1
    simp only at h1
    subst h1
    simp [traceExpr, traceNode, traceArgs, traceAssigns, hon, hargs, hassigns, hA, hV, h2]

/-- Witness of C20: `x=a'b'c`, of three parts, is traced as three copies
of its rendering; `x=$((1))$((2))"a b""c d"`, with the evaluator returning
3 and the literal text of the whole value quoted, gives two copies of `x=3`
and two copies of the same quoted segment. -/
theorem C20_one_segment_per_part_witness :
    (traceExpr printRunner (.CallExpr
        ⟨[⟨"x", some ⟨[.Lit "a", .SglQuoted "b", .Lit "c"]⟩, none⟩], []⟩) ()).1
      = ["+ x=a'b'cx=a'b'cx=a'b'c\n"] ∧
    (traceExpr (demoRunner true 3) (.CallExpr
        ⟨[⟨"x", some ⟨[.ArithmExp "1", .ArithmExp "2", .DblQuoted "a b", .DblQuoted "c d"]⟩,
            none⟩], []⟩) ()).1
      = ["+ x=3x=3x='12a bc d'x='12a bc d'\n"] :=
  ⟨(C20_one_segment_per_part printRunner _
      ⟨"x", some ⟨[.Lit "a", .SglQuoted "b", .Lit "c"]⟩, none⟩
      ⟨[.Lit "a", .SglQuoted "b", .Lit "c"]⟩ () 3 "" "" rfl rfl rfl rfl rfl).1 (by simp),
    (C20_one_segment_per_part (demoRunner true 3) _
      ⟨"x", some ⟨[.ArithmExp "1", .ArithmExp "2", .DblQuoted "a b", .DblQuoted "c d"]⟩, none⟩
      ⟨[.ArithmExp "1", .ArithmExp "2", .DblQuoted "a b", .DblQuoted "c d"]⟩ () 3
      "12a bc d" "'12a bc d'" rfl rfl rfl rfl rfl).2 (by decide) (fun _ => rfl)
      (fun _ => rfl) (fun _ => rfl)⟩

end Sh
